import Mathlib

/-!
Verification development for the text layout and mesh-assembly engine of
`bevy_fontmesh` (src/src/system.rs).

Modelling conventions:
* `f32` scalars are modelled as exact rationals (`ℚ`); the claims under
  study are algebraic identities of the layout arithmetic, not statements
  about rounding.
* `u32` mesh indices are modelled as `Nat`; vertex counts of realizable
  meshes are far below `2^32`, so the `u32` additions in the source never
  wrap on inputs satisfying the data-model invariants.
* Text (`&str`) is modelled as `List Char`; `str::split('\n')` is modelled
  by the structurally identical `splitLines` below (in particular the empty
  string yields one empty line, and a trailing newline yields a trailing
  empty line, exactly as in Rust).
* The external `fontmesh` crate (font parsing, glyph lookup, tessellation)
  is the opaque-collaborator boundary: a `Font` carries the metric
  constants and a lookup function `glyphByChar`, and a `Glyph` carries its
  advance and its tessellation result `toMesh3d depth subdivision`
  (mirroring `g.with_subdivisions(sub).to_mesh_3d(depth)`).  Error payloads
  are never inspected by the system (`Err(_)` / `Err(e)` only logged), so
  fallible calls are modelled with `Option`.
* `bevy` ECS plumbing (queries, `Commands`, asset stores) is modelled by
  explicit state records (`TextMeshWorld`, `GlyphWorld`) and one pass is
  one application of the corresponding `update…Pass` function; `warn!`
  only logs and has no modelled effect.
-/

namespace BevyFontMesh

/-- A 3-component vector of exact scalars, modelling `bevy`'s `Vec3`. -/
structure Vec3 where
  x : ℚ
  y : ℚ
  z : ℚ
deriving DecidableEq, Repr

/-- Componentwise addition (used for the anchor-offset translation pass). -/
def Vec3.add (a b : Vec3) : Vec3 :=
  ⟨a.x + b.x, a.y + b.y, a.z + b.z⟩

/-- Componentwise minimum, modelling `Vec3::min`. -/
def Vec3.minv (a b : Vec3) : Vec3 :=
  ⟨min a.x b.x, min a.y b.y, min a.z b.z⟩

/-- Componentwise maximum, modelling `Vec3::max`. -/
def Vec3.maxv (a b : Vec3) : Vec3 :=
  ⟨max a.x b.x, max a.y b.y, max a.z b.z⟩

/-- The indexed triangle mesh produced by `fontmesh` for one glyph
(`to_mesh_3d`): positions, normals (same length in well-formed meshes)
and a `u32` index buffer. -/
structure GlyphMesh3D where
  vertices : List Vec3
  normals : List Vec3
  indices : List Nat
deriving DecidableEq, Repr

/-- One glyph of a parsed font: its advance width and the result of
tessellating it at a given depth and curve subdivision count
(`g.with_subdivisions(subdivision).to_mesh_3d(depth)`); `none` models a
tessellation error (`Err(_)`). -/
structure Glyph where
  advance : ℚ
  toMesh3d : ℚ → Nat → Option GlyphMesh3D

/-- A parsed font (the external `fontmesh::Font`): the font-wide metric
constants and per-character glyph lookup; `glyphByChar ch = none` models
`font.glyph_by_char(ch)` returning `Err(_)` (no glyph for `ch`). -/
structure Font where
  ascender : ℚ
  descender : ℚ
  lineGap : ℚ
  glyphByChar : Char → Option Glyph

/-- `JustifyText` from src/src/component.rs (referenced by system.rs). -/
inductive JustifyText where
  | Left
  | Center
  | Right
deriving DecidableEq, Repr

/-- `TextAnchor` from src/src/component.rs: nine named anchors plus an
unclamped custom pivot expressed as fractions of the bounding-box size. -/
inductive TextAnchor where
  | TopLeft
  | TopCenter
  | TopRight
  | CenterLeft
  | Center
  | CenterRight
  | BottomLeft
  | BottomCenter
  | BottomRight
  | Custom (pivot : ℚ × ℚ)
deriving DecidableEq, Repr

/-- `TextMeshStyle`: depth, subdivision, justification and anchor. -/
structure TextMeshStyle where
  depth : ℚ
  subdivision : Nat
  justify : JustifyText
  anchor : TextAnchor
deriving DecidableEq, Repr

/-- `line_height = font.ascender() - font.descender() + font.line_gap()`
(system.rs:58 and system.rs:236). -/
def lineHeight (font : Font) : ℚ :=
  font.ascender - font.descender + font.lineGap

/-- `text.split('\n')`: splitting a character sequence at newline
characters, Rust semantics (the empty text yields one empty line; a
trailing `'\n'` yields a trailing empty line). -/
def splitLines : List Char → List (List Char)
  | [] => [[]]
  | c :: rest =>
    if c = '\n' then [] :: splitLines rest
    else
      match splitLines rest with
      | [] => [[c]]
      | l :: ls => (c :: l) :: ls

/-- The per-line width loop shared verbatim by both pipelines
(system.rs:67-74 and system.rs:242-249): a character with a glyph
contributes its advance, a whitespace character without a glyph
contributes the fixed `0.3` fallback, any other character contributes
nothing. -/
def lineWidth (font : Font) (line : List Char) : ℚ :=
  line.foldl
    (fun w ch =>
      match font.glyphByChar ch with
      | some glyph => w + glyph.advance
      | none => if ch.isWhitespace then w + (0.3 : ℚ) else w)
    0

/-- The justification start offset (system.rs:77-81 and
system.rs:262-266): `Left → 0.0`, `Center → -line_width * 0.5`,
`Right → -line_width`. -/
def xStart (justify : JustifyText) (w : ℚ) : ℚ :=
  match justify with
  | .Left => 0
  | .Center => -w * (0.5 : ℚ)
  | .Right => -w

/-- The mutable state threaded through the combined-mesh generation loop of
`update_text_meshes` (system.rs:51-62): the three output buffers, the
cursor, the running index offset and the running bounds.  The source seeds
the bounds with `±f32::MAX` sentinels; here they are `none` until the
first vertex is folded in, which yields the same min/max for every
nonempty vertex set. -/
structure AssemblyState where
  vertices : List Vec3
  normals : List Vec3
  indices : List Nat
  cursorX : ℚ
  cursorY : ℚ
  indexOffset : Nat
  bounds : Option (Vec3 × Vec3)
deriving Repr

/-- `min_bound = min_bound.min(pos); max_bound = max_bound.max(pos)`
(system.rs:107-108), folded one translated vertex at a time. -/
def updateBounds : Option (Vec3 × Vec3) → Vec3 → Option (Vec3 × Vec3)
  | none, v => some (v, v)
  | some (lo, hi), v => some (lo.minv v, hi.maxv v)

/-- The body of the per-character loop of `update_text_meshes`
(system.rs:86-129).  A whitespace character only advances the cursor
(glyph advance, else `0.3`).  Otherwise the glyph is looked up and
tessellated; on success the translated vertices, the unchanged normals and
the offset indices are appended, the bounds folded, the index offset grown
by the vertex count, and — only inside this success branch — the cursor
advanced by the glyph advance (`if let Ok(glyph) … cursor.x += advance`,
system.rs:121-123).  On failure (`Err(_) => continue`) the state is left
untouched. -/
def processCharCombined (font : Font) (style : TextMeshStyle)
    (st : AssemblyState) (ch : Char) : AssemblyState :=
  if ch.isWhitespace then
    { st with
      cursorX :=
        match font.glyphByChar ch with
        | some glyph => st.cursorX + glyph.advance
        | none => st.cursorX + (0.3 : ℚ) }
  else
    match (font.glyphByChar ch).bind
        (fun g => g.toMesh3d style.depth style.subdivision) with
    | some mesh =>
      let translated :=
        mesh.vertices.map (fun v => Vec3.mk (v.x + st.cursorX) (v.y + st.cursorY) v.z)
      { vertices := st.vertices ++ translated
        normals := st.normals ++ mesh.normals
        indices := st.indices ++ mesh.indices.map (fun i => i + st.indexOffset)
        cursorX :=
          match font.glyphByChar ch with
          | some glyph => st.cursorX + glyph.advance
          | none => st.cursorX
        cursorY := st.cursorY
        indexOffset := st.indexOffset + mesh.vertices.length
        bounds := translated.foldl updateBounds st.bounds }
    | none => st

/-- One iteration of the per-line loop of `update_text_meshes`
(system.rs:65-133): reset `cursor.x` to the justification offset, walk the
line's characters, then `cursor.y -= line_height`. -/
def processLineCombined (font : Font) (style : TextMeshStyle)
    (st : AssemblyState) (line : List Char) : AssemblyState :=
  let st1 := { st with cursorX := xStart style.justify (lineWidth font line) }
  let st2 := line.foldl (processCharCombined font style) st1
  { st2 with cursorY := st2.cursorY - lineHeight font }

/-- The initial combined-mesh state (system.rs:51-62): empty buffers,
cursor at the origin, index offset `0`, bounds not yet touched. -/
def initialAssemblyState : AssemblyState :=
  ⟨[], [], [], 0, 0, 0, none⟩

/-- Step 3 of `update_text_meshes`: fold every line of the text through
the assembly loop. -/
def assembleText (font : Font) (style : TextMeshStyle) (text : List Char) :
    AssemblyState :=
  (splitLines text).foldl (processLineCombined font style) initialAssemblyState

/-- The anchor-offset table of `update_text_meshes` (system.rs:137-157),
with `size = max - min` and `center = min + size * 0.5`; `Custom` uses the
pivot fractions unclamped. -/
def anchorOffset (anchor : TextAnchor) (lo hi : Vec3) : Vec3 :=
  let size : Vec3 := ⟨hi.x - lo.x, hi.y - lo.y, hi.z - lo.z⟩
  let center : Vec3 := ⟨lo.x + size.x * (0.5 : ℚ), lo.y + size.y * (0.5 : ℚ),
    lo.z + size.z * (0.5 : ℚ)⟩
  match anchor with
  | .TopLeft => ⟨-lo.x, -hi.y, 0⟩
  | .TopCenter => ⟨-center.x, -hi.y, 0⟩
  | .TopRight => ⟨-hi.x, -hi.y, 0⟩
  | .CenterLeft => ⟨-lo.x, -center.y, 0⟩
  | .Center => ⟨-center.x, -center.y, 0⟩
  | .CenterRight => ⟨-hi.x, -center.y, 0⟩
  | .BottomLeft => ⟨-lo.x, -lo.y, 0⟩
  | .BottomCenter => ⟨-center.x, -lo.y, 0⟩
  | .BottomRight => ⟨-hi.x, -lo.y, 0⟩
  | .Custom pivot =>
    ⟨-(lo.x + size.x * pivot.1), -(lo.y + size.y * pivot.2), 0⟩

/-- The single merged output mesh handed to `Mesh::new` /
`insert_attribute` / `insert_indices` (system.rs:167-174). -/
structure CombinedMesh where
  vertices : List Vec3
  normals : List Vec3
  indices : List Nat
deriving DecidableEq, Repr

/-- Steps 3-5 of `update_text_meshes`: assemble all lines, then — only
when at least one vertex exists (system.rs:136) — translate every vertex
by the anchor offset computed from the accumulated bounds.  Normals and
indices are never touched by the anchor pass. -/
def layoutCombined (font : Font) (style : TextMeshStyle) (text : List Char) :
    CombinedMesh :=
  let st := assembleText font style text
  if st.vertices.isEmpty then
    ⟨st.vertices, st.normals, st.indices⟩
  else
    let off :=
      match st.bounds with
      | some (lo, hi) => anchorOffset style.anchor lo hi
      | none => ⟨0, 0, 0⟩
    ⟨st.vertices.map (fun v => v.add off), st.normals, st.indices⟩

/-- The payload of one spawned glyph child entity in the per-entity
pipeline `update_glyph_meshes` (system.rs:316-328): the `GlyphMesh` marker
data (`char_index`, `line_index`, `character`), the character's
*untranslated* local mesh, and the `Transform::from_xyz(cursor_x,
cursor_y, 0.0)` placement. -/
structure GlyphPlacement where
  charIndex : Nat
  lineIndex : Nat
  character : Char
  mesh : GlyphMesh3D
  posX : ℚ
  posY : ℚ
deriving DecidableEq, Repr

/-- The advance computation of `update_glyph_meshes` (system.rs:272-278):
glyph advance when the glyph exists, else `0.3` for whitespace, else
`0.0`. -/
def charAdvancePerEntity (font : Font) (ch : Char) : ℚ :=
  match font.glyphByChar ch with
  | some glyph => glyph.advance
  | none => if ch.isWhitespace then (0.3 : ℚ) else 0

/-- The body of the per-character loop of `update_glyph_meshes`
(system.rs:271-333), threading `(cursor_x, char_index, spawned)`.
Whitespace is skipped but still advances the cursor and the character
counter; otherwise the glyph is tessellated and on success one child is
spawned at the *pre-advance* cursor; in every case `cursor_x += advance`
and `char_index += 1` run afterwards (system.rs:331-332) — also when
tessellation failed. -/
def processCharPerEntity (font : Font) (style : TextMeshStyle)
    (lineIndex : Nat) (cursorY : ℚ) (st : ℚ × Nat × List GlyphPlacement)
    (ch : Char) : ℚ × Nat × List GlyphPlacement :=
  let advance := charAdvancePerEntity font ch
  if ch.isWhitespace then
    (st.1 + advance, st.2.1 + 1, st.2.2)
  else
    match (font.glyphByChar ch).bind
        (fun g => g.toMesh3d style.depth style.subdivision) with
    | some mesh =>
      (st.1 + advance, st.2.1 + 1,
        st.2.2 ++ [⟨st.2.1, lineIndex, ch, mesh, st.1, cursorY⟩])
    | none => (st.1 + advance, st.2.1 + 1, st.2.2)

/-- The per-line loop of `update_glyph_meshes` (system.rs:258-337),
carrying the enumerated `line_index` and the running `char_index`
explicitly: each line starts at the justification offset with
`cursor_y = -(line_index as f32) * line_height`, and after each line the
implicit newline bumps `char_index` by one (system.rs:336). -/
def placeLines (font : Font) (style : TextMeshStyle) :
    Nat → Nat → List GlyphPlacement → List (List Char) → List GlyphPlacement
  | _, _, acc, [] => acc
  | lineIndex, charIndex, acc, line :: rest =>
    let x0 := xStart style.justify (lineWidth font line)
    let cursorY := -(lineIndex : ℚ) * lineHeight font
    let folded :=
      line.foldl (processCharPerEntity font style lineIndex cursorY)
        (x0, charIndex, acc)
    placeLines font style (lineIndex + 1) (folded.2.1 + 1) folded.2.2 rest

/-- Steps 4-5 of `update_glyph_meshes`: the full list of glyph children
spawned for a text, in spawn order. -/
def layoutPlacements (font : Font) (style : TextMeshStyle)
    (text : List Char) : List GlyphPlacement :=
  placeLines font style 0 0 [] (splitLines text)

/-! ### System shells

The ECS plumbing around the two layout passes, modelled as explicit state
transformers.  Font bytes are opaque (`List Nat`); `Font.from_bytes` is an
arbitrary parse function supplied by the environment, `none` modelling
`Err(e)` (which is only logged with `warn!`). -/

/-- The state touched by one `update_text_meshes` pass for one entity: the
mesh asset store (`meshes.add` appends; a handle is an index), the
entity's `Mesh3d` handle and its `TextMeshComputed` marker. -/
structure TextMeshWorld where
  meshStore : List CombinedMesh
  entityMesh : Nat
  computed : Bool
deriving DecidableEq, Repr

/-- One `update_text_meshes` pass for one entity (system.rs:31-181):
missing font asset → skip (frame retried later); unparseable font bytes →
warn and skip; otherwise the combined mesh is generated, added to the
asset store, assigned to the entity, and the entity marked computed. -/
def updateTextMeshPass (fontAsset : Option (List Nat))
    (fromBytes : List Nat → Option Font) (style : TextMeshStyle)
    (text : List Char) (w : TextMeshWorld) : TextMeshWorld :=
  match fontAsset with
  | none => w
  | some bytes =>
    match fromBytes bytes with
    | none => w
    | some font =>
      let newMesh := layoutCombined font style text
      { meshStore := w.meshStore ++ [newMesh]
        entityMesh := w.meshStore.length
        computed := true }

/-- A child entity of a text entity in the per-entity pipeline: either an
unrelated child (no `GlyphMesh` marker component, opaque id) or a glyph
child carrying the `GlyphMesh` marker and its payload. -/
inductive ChildEntity where
  | other (id : Nat)
  | glyph (g : GlyphPlacement)
deriving DecidableEq, Repr

/-- Whether a child is matched by `Query<Entity, With<GlyphMesh>>`
(system.rs:205), i.e. carries the `GlyphMesh` marker component. -/
def hasGlyphMark : ChildEntity → Bool
  | .other _ => false
  | .glyph _ => true

/-- The despawn loop of `update_glyph_meshes` (system.rs:227-233): walk
the existing children and despawn exactly those contained in the
`GlyphMesh` query.  Returns (children kept, children despawned), both in
original order. -/
def despawnGlyphChildren : List ChildEntity → List ChildEntity × List ChildEntity
  | [] => ([], [])
  | c :: rest =>
    let r := despawnGlyphChildren rest
    if hasGlyphMark c then (r.1, c :: r.2) else (c :: r.1, r.2)

/-- The state touched by one `update_glyph_meshes` pass for one entity:
its children list and its `TextMeshGlyphsComputed` marker. -/
structure GlyphWorld where
  children : List ChildEntity
  computed : Bool
deriving DecidableEq, Repr

/-- One `update_glyph_meshes` pass for one entity (system.rs:207-342):
missing font asset → skip; unparseable font bytes → warn and skip;
otherwise despawn exactly the `GlyphMesh`-marked children, spawn one new
glyph child per successfully tessellated non-whitespace character, and
mark the entity computed. -/
def updateGlyphMeshesPass (fontAsset : Option (List Nat))
    (fromBytes : List Nat → Option Font) (style : TextMeshStyle)
    (text : List Char) (w : GlyphWorld) : GlyphWorld :=
  match fontAsset with
  | none => w
  | some bytes =>
    match fromBytes bytes with
    | none => w
    | some font =>
      { children :=
          (despawnGlyphChildren w.children).1 ++
            (layoutPlacements font style text).map ChildEntity.glyph
        computed := true }

/-! ### Metrics-query component

`text_width` / `char_positions` live in src/src/asset.rs, which is not
part of the provided sources (only its callers in tests/font_metrics.rs
are).  They are modelled from the spec. -/

/-- Modelled from the spec: the per-character advance of the
metrics-query path (src/src/asset.rs, absent from src/) — glyph advance
when present, else `0.25 * (ascender - descender)` for whitespace, else
`0`. -/
def metricsAdvance (font : Font) (ch : Char) : ℚ :=
  match font.glyphByChar ch with
  | some glyph => glyph.advance
  | none =>
    if ch.isWhitespace then (0.25 : ℚ) * (font.ascender - font.descender)
    else 0

/-- Modelled from the spec: `FontMesh::text_width` (src/src/asset.rs,
absent from src/) — the sum of per-character advances under the
metrics-path fallback rule. -/
def text_width (font : Font) (text : List Char) : ℚ :=
  (text.map (metricsAdvance font)).sum

/-- Modelled from the spec: `FontMesh::char_positions` (src/src/asset.rs,
absent from src/) — one `(index, x_offset)` pair per character, the
x-offset of character `i` being the sum of the advances of the characters
before it (first pair `(0, 0.0)` for nonempty input, empty output for
empty input). -/
def char_positions (font : Font) (text : List Char) : List (Nat × ℚ) :=
  (List.range text.length).map
    (fun i => (i, text_width font (text.take i)))

/-! ### Data-model invariants (spec §3, `LocalGlyphMesh`) -/

/-- `LocalGlyphMesh` index invariant: every index references an existing
vertex. -/
def meshIndexWF (m : GlyphMesh3D) : Prop :=
  ∀ i ∈ m.indices, i < m.vertices.length

/-- `LocalGlyphMesh` normals invariant: one normal per vertex. -/
def meshNormalsWF (m : GlyphMesh3D) : Prop :=
  m.normals.length = m.vertices.length

/-- Every glyph mesh the font can produce at the given depth/subdivision
satisfies the index invariant. -/
def fontMeshesIndexWF (font : Font) (depth : ℚ) (sub : Nat) : Prop :=
  ∀ ch g m, font.glyphByChar ch = some g →
    g.toMesh3d depth sub = some m → meshIndexWF m

/-- Every glyph mesh the font can produce at the given depth/subdivision
satisfies the normals invariant. -/
def fontMeshesNormalsWF (font : Font) (depth : ℚ) (sub : Nat) : Prop :=
  ∀ ch g m, font.glyphByChar ch = some g →
    g.toMesh3d depth sub = some m → meshNormalsWF m

/-- No glyph of the font fails tessellation at the given
depth/subdivision (the regime in which the two pipelines coincide). -/
def fontNoTessFail (font : Font) (depth : ℚ) (sub : Nat) : Prop :=
  ∀ ch g, font.glyphByChar ch = some g → (g.toMesh3d depth sub).isSome

/-- The vertices a `GlyphPlacement` contributes once its local mesh is
translated by its placement position — the translation the combined
pipeline applies at merge time. -/
def glyphVertices (p : GlyphPlacement) : List Vec3 :=
  p.mesh.vertices.map (fun v => Vec3.mk (v.x + p.posX) (v.y + p.posY) v.z)

/-- Running index integrity of the combined-mesh state: the index offset
equals the vertex count so far, and every merged index is in range. -/
def indexInv (st : AssemblyState) : Prop :=
  st.indexOffset = st.vertices.length ∧
    ∀ i ∈ st.indices, i < st.vertices.length

/-- Running normals/vertices length agreement of the combined-mesh
state. -/
def normalsInv (st : AssemblyState) : Prop :=
  st.normals.length = st.vertices.length

/-- The running bounds are exactly the min/max fold over every vertex
emitted so far. -/
def boundsInv (st : AssemblyState) : Prop :=
  st.bounds = st.vertices.foldl updateBounds none

/-! ### Concrete instances used for witnesses and counterexamples -/

/-- A triangle glyph mesh (three vertices, unit-z normals, one
triangle). -/
def exMeshB : GlyphMesh3D :=
  ⟨[⟨0, 0, 0⟩, ⟨1, 0, 0⟩, ⟨0, 1, 0⟩],
   [⟨0, 0, 1⟩, ⟨0, 0, 1⟩, ⟨0, 0, 1⟩], [0, 1, 2]⟩

/-- A glyph with advance `1` whose tessellation always fails
(`to_mesh_3d` returns `Err(_)`). -/
def exGlyphA : Glyph := ⟨1, fun _ _ => none⟩

/-- A glyph with advance `1` that tessellates to `exMeshB`. -/
def exGlyphB : Glyph := ⟨1, fun _ _ => some exMeshB⟩

/-- A font with a failing glyph at `'a'` and a good glyph at `'b'`;
ascender `3/4`, descender `-1/4`, line gap `1/2`, so the line height is
`3/2`. -/
def exFont : Font :=
  ⟨3/4, -1/4, 1/2, fun ch =>
    if ch = 'a' then some exGlyphA
    else if ch = 'b' then some exGlyphB
    else none⟩

/-- A font whose only glyph (`'b'`) tessellates successfully. -/
def exFontOk : Font :=
  ⟨3/4, -1/4, 1/2, fun ch => if ch = 'b' then some exGlyphB else none⟩

/-- A left-justified, bottom-left-anchored style at depth `1`,
subdivision `0`. -/
def exStyle : TextMeshStyle := ⟨1, 0, .Left, .BottomLeft⟩

/-- The glyph placement the planner emits for the second `'b'` of
`"b\nb"` under `exFont` and `exStyle`: character index 2, line 1, placed
at `(0, -3/2)` (one line height below the first line). -/
def exPlacement : GlyphPlacement := ⟨2, 1, 'b', exMeshB, 0, -(3/2)⟩

/-! ## Helper lemmas -/

/-- The per-character loop of the combined pipeline never touches
`cursor.y`. -/
theorem processCharCombined_cursorY (font : Font) (style : TextMeshStyle)
    (st : AssemblyState) (ch : Char) :
    (processCharCombined font style st ch).cursorY = st.cursorY := by
  unfold processCharCombined
  split
  · rfl
  · split <;> rfl

/-- Folding a whole line through the per-character loop never touches
`cursor.y`. -/
theorem foldl_processCharCombined_cursorY (font : Font) (style : TextMeshStyle) :
    ∀ (line : List Char) (st : AssemblyState),
      (line.foldl (processCharCombined font style) st).cursorY = st.cursorY := by
  intro line
  induction line with
  | nil => intro st; rfl
  | cons c cs ih =>
    intro st
    rw [List.foldl_cons, ih, processCharCombined_cursorY]

/-- One line moves `cursor.y` down by exactly one line height. -/
theorem processLineCombined_cursorY (font : Font) (style : TextMeshStyle)
    (st : AssemblyState) (line : List Char) :
    (processLineCombined font style st line).cursorY
      = st.cursorY - lineHeight font := by
  unfold processLineCombined
  simp [foldl_processCharCombined_cursorY]

/-- After `n` lines the vertical cursor has dropped by `n` line
heights. -/
theorem foldl_processLineCombined_cursorY (font : Font) (style : TextMeshStyle) :
    ∀ (lines : List (List Char)) (st : AssemblyState),
      (lines.foldl (processLineCombined font style) st).cursorY
        = st.cursorY - (lines.length : ℚ) * lineHeight font := by
  intro lines
  induction lines with
  | nil => intro st; simp
  | cons l ls ih =>
    intro st
    rw [List.foldl_cons, ih, processLineCombined_cursorY]
    simp only [List.length_cons]
    push_cast
    ring

/-- On a whitespace character the combined per-character loop only moves
`cursor.x`. -/
theorem processCharCombined_of_whitespace (font : Font) (style : TextMeshStyle)
    (st : AssemblyState) (ch : Char) (h : ch.isWhitespace = true) :
    processCharCombined font style st ch =
      { st with
        cursorX :=
          match font.glyphByChar ch with
          | some glyph => st.cursorX + glyph.advance
          | none => st.cursorX + (0.3 : ℚ) } := by
  unfold processCharCombined
  simp [h]

/-- A line of pure whitespace leaves all three output buffers (and the
index offset and bounds) untouched. -/
theorem foldl_processCharCombined_ws (font : Font) (style : TextMeshStyle) :
    ∀ (line : List Char) (st : AssemblyState),
      (∀ c ∈ line, c.isWhitespace = true) →
      (line.foldl (processCharCombined font style) st).vertices = st.vertices ∧
      (line.foldl (processCharCombined font style) st).normals = st.normals ∧
      (line.foldl (processCharCombined font style) st).indices = st.indices := by
  intro line
  induction line with
  | nil => intro st _; exact ⟨rfl, rfl, rfl⟩
  | cons c cs ih =>
    intro st hws
    rw [List.foldl_cons,
      processCharCombined_of_whitespace font style st c (hws c (by simp))]
    exact ih _ (fun x hx => hws x (by simp [hx]))

/-- A step-closed predicate is preserved by a left fold. -/
theorem foldl_preserve {α β : Type} (P : β → Prop) (f : β → α → β) :
    ∀ (l : List α) (b : β), (∀ b a, P b → P (f b a)) → P b → P (l.foldl f b) := by
  intro l
  induction l with
  | nil => intro b _ h; exact h
  | cons x xs ih => intro b hstep h; exact ih _ hstep (hstep b x h)

/-- One character of the combined pipeline preserves index integrity,
provided every glyph mesh the font yields is itself index-well-formed. -/
theorem processCharCombined_indexInv (font : Font) (style : TextMeshStyle)
    (hWF : fontMeshesIndexWF font style.depth style.subdivision) :
    ∀ (st : AssemblyState) (ch : Char), indexInv st →
      indexInv (processCharCombined font style st ch) := by
  intro st ch h
  obtain ⟨h1, h2⟩ := h
  unfold processCharCombined
  split
  · exact ⟨h1, h2⟩
  · split
    · next mesh heq =>
      obtain ⟨g, hg, hm⟩ := Option.bind_eq_some.mp heq
      have hWFm := hWF ch g mesh hg hm
      constructor
      · simp [indexInv, h1]
      · intro i hi
        simp only [List.mem_append, List.mem_map] at hi
        simp only [List.length_append, List.length_map]
        rcases hi with hi | ⟨j, hj, rfl⟩
        · have := h2 i hi; omega
        · have := hWFm j hj; omega
    · exact ⟨h1, h2⟩

/-- One character of the combined pipeline preserves the
normals-per-vertex agreement, provided every glyph mesh the font yields
has one normal per vertex. -/
theorem processCharCombined_normalsInv (font : Font) (style : TextMeshStyle)
    (hWF : fontMeshesNormalsWF font style.depth style.subdivision) :
    ∀ (st : AssemblyState) (ch : Char), normalsInv st →
      normalsInv (processCharCombined font style st ch) := by
  intro st ch h
  unfold processCharCombined
  split
  · exact h
  · split
    · next mesh heq =>
      obtain ⟨g, hg, hm⟩ := Option.bind_eq_some.mp heq
      have hWFm := hWF ch g mesh hg hm
      unfold meshNormalsWF at hWFm
      simp only [normalsInv, List.length_append, List.length_map] at h ⊢
      omega
    · exact h

/-- One character of the combined pipeline keeps the running bounds equal
to the fold over all vertices emitted so far. -/
theorem processCharCombined_boundsInv (font : Font) (style : TextMeshStyle) :
    ∀ (st : AssemblyState) (ch : Char), boundsInv st →
      boundsInv (processCharCombined font style st ch) := by
  intro st ch h
  unfold processCharCombined
  split
  · exact h
  · split
    · next mesh heq =>
      unfold boundsInv at h ⊢
      simp only [List.foldl_append, ← h]
    · exact h

/-- One line of the combined pipeline preserves index integrity. -/
theorem processLineCombined_indexInv (font : Font) (style : TextMeshStyle)
    (hWF : fontMeshesIndexWF font style.depth style.subdivision)
    (st : AssemblyState) (line : List Char) (h : indexInv st) :
    indexInv (processLineCombined font style st line) :=
  foldl_preserve indexInv (processCharCombined font style) line _
    (processCharCombined_indexInv font style hWF) h

/-- One line of the combined pipeline preserves the normals/vertices
agreement. -/
theorem processLineCombined_normalsInv (font : Font) (style : TextMeshStyle)
    (hWF : fontMeshesNormalsWF font style.depth style.subdivision)
    (st : AssemblyState) (line : List Char) (h : normalsInv st) :
    normalsInv (processLineCombined font style st line) :=
  foldl_preserve normalsInv (processCharCombined font style) line _
    (processCharCombined_normalsInv font style hWF) h

/-- One line of the combined pipeline preserves the bounds
characterisation. -/
theorem processLineCombined_boundsInv (font : Font) (style : TextMeshStyle)
    (st : AssemblyState) (line : List Char) (h : boundsInv st) :
    boundsInv (processLineCombined font style st line) :=
  foldl_preserve boundsInv (processCharCombined font style) line _
    (processCharCombined_boundsInv font style) h

/-- The assembled state of any text has index integrity. -/
theorem assembleText_indexInv (font : Font) (style : TextMeshStyle)
    (text : List Char)
    (hWF : fontMeshesIndexWF font style.depth style.subdivision) :
    indexInv (assembleText font style text) :=
  foldl_preserve indexInv (processLineCombined font style) (splitLines text) _
    (fun st line h => processLineCombined_indexInv font style hWF st line h)
    ⟨rfl, by intro i hi; simp [initialAssemblyState] at hi⟩

/-- The assembled state of any text has one normal per vertex. -/
theorem assembleText_normalsInv (font : Font) (style : TextMeshStyle)
    (text : List Char)
    (hWF : fontMeshesNormalsWF font style.depth style.subdivision) :
    normalsInv (assembleText font style text) :=
  foldl_preserve normalsInv (processLineCombined font style) (splitLines text) _
    (fun st line h => processLineCombined_normalsInv font style hWF st line h)
    rfl

/-- The assembled bounds of any text are the min/max fold over all
assembled vertices. -/
theorem assembleText_boundsInv (font : Font) (style : TextMeshStyle)
    (text : List Char) : boundsInv (assembleText font style text) :=
  foldl_preserve boundsInv (processLineCombined font style) (splitLines text) _
    (fun st line h => processLineCombined_boundsInv font style st line h)
    rfl

/-- With no vertices, index integrity forces an empty index buffer. -/
theorem indexInv_empty {st : AssemblyState} (h : indexInv st)
    (hv : st.vertices = []) : st.indices = [] := by
  obtain ⟨-, h2⟩ := h
  rcases heq : st.indices with _ | ⟨i, rest⟩
  · rfl
  · have := h2 i (by rw [heq]; simp)
    rw [hv] at this
    simp at this

/-- With no vertices, the normals agreement forces an empty normal
buffer. -/
theorem normalsInv_empty {st : AssemblyState} (h : normalsInv st)
    (hv : st.vertices = []) : st.normals = [] := by
  unfold normalsInv at h
  rw [hv] at h
  simpa using h

/-- `updateBounds` always yields an actual bound. -/
theorem updateBounds_isSome (b : Option (Vec3 × Vec3)) (v : Vec3) :
    (updateBounds b v).isSome := by
  rcases b with _ | ⟨lo, hi⟩ <;> simp [updateBounds]

/-- Folding more vertices into an actual bound keeps it actual. -/
theorem foldl_updateBounds_isSome :
    ∀ (l : List Vec3) (b : Option (Vec3 × Vec3)), b.isSome →
      (l.foldl updateBounds b).isSome := by
  intro l
  induction l with
  | nil => intro b h; exact h
  | cons v rest ih =>
    intro b _
    rw [List.foldl_cons]
    exact ih _ (updateBounds_isSome b v)

/-- A nonempty vertex list always folds to an actual bound. -/
theorem foldl_updateBounds_cons_isSome (v : Vec3) (rest : List Vec3) :
    ((v :: rest).foldl updateBounds none).isSome := by
  rw [List.foldl_cons]
  exact foldl_updateBounds_isSome rest _ (updateBounds_isSome none v)

/-- When at least one vertex was assembled, the anchor pass translates
every vertex by the offset computed from the accumulated bounds and
leaves normals and indices untouched. -/
theorem layoutCombined_of_ne_nil (font : Font) (style : TextMeshStyle)
    (text : List Char) (h : (assembleText font style text).vertices ≠ []) :
    ∃ lo hi, (assembleText font style text).bounds = some (lo, hi) ∧
      layoutCombined font style text =
        ⟨(assembleText font style text).vertices.map
            (fun v => v.add (anchorOffset style.anchor lo hi)),
          (assembleText font style text).normals,
          (assembleText font style text).indices⟩ := by
  have hb := assembleText_boundsInv font style text
  unfold boundsInv at hb
  have hsome : (assembleText font style text).bounds.isSome := by
    rw [hb]
    rcases hv : (assembleText font style text).vertices with _ | ⟨v, rest⟩
    · exact absurd hv h
    · exact foldl_updateBounds_cons_isSome v rest
  obtain ⟨⟨lo, hi⟩, hlohi⟩ := Option.isSome_iff_exists.mp hsome
  refine ⟨lo, hi, hlohi, ?_⟩
  unfold layoutCombined
  have hne : (assembleText font style text).vertices.isEmpty = false := by
    simp [List.isEmpty_iff, h]
  simp only [hne, hlohi, Bool.false_eq_true, if_false]

/-- When no vertex was assembled, the anchor pass is skipped and the
buffers are passed through unchanged. -/
theorem layoutCombined_of_nil (font : Font) (style : TextMeshStyle)
    (text : List Char) (h : (assembleText font style text).vertices = []) :
    layoutCombined font style text =
      ⟨[], (assembleText font style text).normals,
        (assembleText font style text).indices⟩ := by
  unfold layoutCombined
  have hne : (assembleText font style text).vertices.isEmpty = true := by
    simp [List.isEmpty_iff, h]
  simp [hne, h]

/-- On one character — provided no glyph of the font fails tessellation —
the combined loop and the per-entity loop move the cursor identically,
and the combined vertex buffer stays equal to the flattened translated
placements. -/
theorem processChar_rel (font : Font) (style : TextMeshStyle)
    (hNF : fontNoTessFail font style.depth style.subdivision)
    (li : Nat) (y : ℚ) (st : AssemblyState) (cx : ℚ) (ci : Nat)
    (acc : List GlyphPlacement) (ch : Char)
    (hx : st.cursorX = cx) (hy : st.cursorY = y)
    (hv : st.vertices = (acc.map glyphVertices).flatten) :
    (processCharCombined font style st ch).cursorX
        = (processCharPerEntity font style li y (cx, ci, acc) ch).1 ∧
      (processCharCombined font style st ch).cursorY = y ∧
      (processCharCombined font style st ch).vertices
        = (((processCharPerEntity font style li y (cx, ci, acc) ch).2.2).map
            glyphVertices).flatten := by
  by_cases hws : ch.isWhitespace = true
  all_goals rcases hlook : font.glyphByChar ch with _ | g
  · unfold processCharCombined processCharPerEntity charAdvancePerEntity
    simp [hws, hlook, hx, hy, hv]
  · unfold processCharCombined processCharPerEntity charAdvancePerEntity
    simp [hws, hlook, hx, hy, hv]
  · unfold processCharCombined processCharPerEntity charAdvancePerEntity
    simp [hws, hlook, hx, hy, hv]
  · have hm := hNF ch g hlook
    obtain ⟨m, hm⟩ := Option.isSome_iff_exists.mp hm
    unfold processCharCombined processCharPerEntity charAdvancePerEntity
    simp [hws, hlook, hm, hx, hy, hv, glyphVertices, List.map_append,
      List.flatten_append]

/-- Folding one whole line: same cursor, and the combined vertex buffer
equals the flattened translated placements accumulated so far. -/
theorem foldl_chars_rel (font : Font) (style : TextMeshStyle)
    (hNF : fontNoTessFail font style.depth style.subdivision)
    (li : Nat) (y : ℚ) :
    ∀ (line : List Char) (st : AssemblyState) (cx : ℚ) (ci : Nat)
      (acc : List GlyphPlacement),
      st.cursorX = cx → st.cursorY = y →
      st.vertices = (acc.map glyphVertices).flatten →
      (line.foldl (processCharCombined font style) st).cursorY = y ∧
      (line.foldl (processCharCombined font style) st).vertices
        = (((line.foldl (processCharPerEntity font style li y)
              (cx, ci, acc)).2.2).map glyphVertices).flatten := by
  intro line
  induction line with
  | nil => intro st cx ci acc _ hy hv; exact ⟨hy, hv⟩
  | cons c cs ih =>
    intro st cx ci acc hx hy hv
    obtain ⟨h1, h2, h3⟩ := processChar_rel font style hNF li y st cx ci acc c hx hy hv
    rw [List.foldl_cons, List.foldl_cons]
    exact ih (processCharCombined font style st c)
      (processCharPerEntity font style li y (cx, ci, acc) c).1
      (processCharPerEntity font style li y (cx, ci, acc) c).2.1
      (processCharPerEntity font style li y (cx, ci, acc) c).2.2
      h1 h2 h3

/-- Over whole line lists, the combined vertex buffer equals the
flattened translated output of the glyph placement planner. -/
theorem placeLines_rel (font : Font) (style : TextMeshStyle)
    (hNF : fontNoTessFail font style.depth style.subdivision) :
    ∀ (lines : List (List Char)) (li ci : Nat) (acc : List GlyphPlacement)
      (st : AssemblyState),
      st.cursorY = -(li : ℚ) * lineHeight font →
      st.vertices = (acc.map glyphVertices).flatten →
      (lines.foldl (processLineCombined font style) st).vertices
        = ((placeLines font style li ci acc lines).map glyphVertices).flatten := by
  intro lines
  induction lines with
  | nil => intro li ci acc st _ hv; exact hv
  | cons line rest ih =>
    intro li ci acc st hy hv
    obtain ⟨hy2, hv2⟩ := foldl_chars_rel font style hNF li
      (-(li : ℚ) * lineHeight font) line
      { st with cursorX := xStart style.justify (lineWidth font line) }
      (xStart style.justify (lineWidth font line)) ci acc rfl hy hv
    rw [List.foldl_cons]
    unfold placeLines
    refine ih (li + 1) _ _ (processLineCombined font style st line) ?_ ?_
    · show (processLineCombined font style st line).cursorY
        = -((li + 1 : Nat) : ℚ) * lineHeight font
      rw [processLineCombined_cursorY]
      rw [hy]
      push_cast
      ring
    · show (processLineCombined font style st line).vertices = _
      unfold processLineCombined
      exact hv2

/-- A placement produced while folding one line either was already in the
accumulator or carries this line's index and vertical cursor. -/
theorem mem_foldl_processCharPerEntity (font : Font) (style : TextMeshStyle)
    (li : Nat) (y : ℚ) :
    ∀ (line : List Char) (s : ℚ × Nat × List GlyphPlacement)
      (p : GlyphPlacement),
      p ∈ (line.foldl (processCharPerEntity font style li y) s).2.2 →
      p ∈ s.2.2 ∨ (p.lineIndex = li ∧ p.posY = y) := by
  intro line
  induction line with
  | nil => intro s p hp; exact Or.inl hp
  | cons c cs ih =>
    intro s p hp
    rw [List.foldl_cons] at hp
    rcases ih _ p hp with h | h
    · unfold processCharPerEntity at h
      by_cases hws : c.isWhitespace = true
      · simp only [hws, if_true] at h
        exact Or.inl h
      · rcases hbind : (font.glyphByChar c).bind
            (fun g => g.toMesh3d style.depth style.subdivision) with _ | m
        · simp [hws, hbind] at h
          exact Or.inl h
        · simp [hws, hbind] at h
          rcases h with h | h
          · exact Or.inl h
          · subst h; exact Or.inr ⟨rfl, rfl⟩
    · exact Or.inr h

/-- Every placement the planner emits sits at
`cursor_y = -line_index * line_height`. -/
theorem placeLines_posY (font : Font) (style : TextMeshStyle) :
    ∀ (lines : List (List Char)) (li ci : Nat) (acc : List GlyphPlacement),
      (∀ p ∈ acc, p.posY = -(p.lineIndex : ℚ) * lineHeight font) →
      ∀ p ∈ placeLines font style li ci acc lines,
        p.posY = -(p.lineIndex : ℚ) * lineHeight font := by
  intro lines
  induction lines with
  | nil => intro li ci acc hacc p hp; exact hacc p hp
  | cons line rest ih =>
    intro li ci acc hacc p hp
    unfold placeLines at hp
    refine ih (li + 1) _ _ ?_ p hp
    intro q hq
    rcases mem_foldl_processCharPerEntity font style li
        (-(li : ℚ) * lineHeight font) line _ q hq with h | ⟨h1, h2⟩
    · exact hacc q h
    · rw [h2, h1]

/-- The despawn loop keeps exactly the unmarked children and despawns
exactly the `GlyphMesh`-marked ones, preserving order. -/
theorem despawnGlyphChildren_spec :
    ∀ (children : List ChildEntity),
      (despawnGlyphChildren children).1
          = children.filter (fun c => !hasGlyphMark c) ∧
        (despawnGlyphChildren children).2 = children.filter hasGlyphMark := by
  intro children
  induction children with
  | nil => exact ⟨rfl, rfl⟩
  | cons c rest ih =>
    unfold despawnGlyphChildren
    rcases h : hasGlyphMark c with _ | _ <;>
      simp [h, List.filter_cons, ih.1, ih.2]

/-- The pre-anchor assembly does not depend on the anchor field of the
style. -/
theorem assembleText_anchor_free (font : Font) (d : ℚ) (sub : Nat)
    (j : JustifyText) (a1 a2 : TextAnchor) (text : List Char) :
    assembleText font ⟨d, sub, j, a1⟩ text
      = assembleText font ⟨d, sub, j, a2⟩ text := rfl

/-- The per-line width accumulation is a plain sum of per-character
advances under the layout-path fallback rule. -/
theorem foldl_lineWidth_eq_sum (font : Font) :
    ∀ (line : List Char) (a : ℚ),
      line.foldl
        (fun w ch =>
          match font.glyphByChar ch with
          | some glyph => w + glyph.advance
          | none => if ch.isWhitespace then w + (0.3 : ℚ) else w) a
      = a + (line.map
          (fun ch =>
            match font.glyphByChar ch with
            | some glyph => glyph.advance
            | none => if ch.isWhitespace then (0.3 : ℚ) else 0)).sum := by
  intro line
  induction line with
  | nil => intro a; simp
  | cons c cs ih =>
    intro a
    rw [List.foldl_cons, List.map_cons, List.sum_cons]
    rcases hlook : font.glyphByChar c with _ | g
    · by_cases hws : c.isWhitespace = true
      · simp [hlook, hws, ih]; ring
      · simp [hlook, hws, ih]
    · simp [hlook, ih]; ring

/-- Every mesh `exFont` can produce is index-well-formed (only `'b'`
yields one, the triangle `exMeshB`). -/
theorem exFont_indexWF : fontMeshesIndexWF exFont 1 0 := by
  intro ch g m hg hm
  have hg2 : (if ch = 'a' then some exGlyphA
      else if ch = 'b' then some exGlyphB else none) = some g := hg
  by_cases ha : ch = 'a'
  · rw [if_pos ha] at hg2
    cases Option.some.inj hg2
    exact absurd hm (by simp [exGlyphA])
  · rw [if_neg ha] at hg2
    by_cases hb : ch = 'b'
    · rw [if_pos hb] at hg2
      cases Option.some.inj hg2
      have hm2 : some exMeshB = some m := hm
      cases Option.some.inj hm2
      show ∀ i ∈ exMeshB.indices, i < exMeshB.vertices.length
      decide
    · rw [if_neg hb] at hg2
      exact Option.noConfusion hg2

/-- Every mesh `exFont` can produce has one normal per vertex. -/
theorem exFont_normalsWF : fontMeshesNormalsWF exFont 1 0 := by
  intro ch g m hg hm
  have hg2 : (if ch = 'a' then some exGlyphA
      else if ch = 'b' then some exGlyphB else none) = some g := hg
  by_cases ha : ch = 'a'
  · rw [if_pos ha] at hg2
    cases Option.some.inj hg2
    exact absurd hm (by simp [exGlyphA])
  · rw [if_neg ha] at hg2
    by_cases hb : ch = 'b'
    · rw [if_pos hb] at hg2
      cases Option.some.inj hg2
      have hm2 : some exMeshB = some m := hm
      cases Option.some.inj hm2
      rfl
    · rw [if_neg hb] at hg2
      exact Option.noConfusion hg2

/-- No glyph of `exFontOk` fails tessellation. -/
theorem exFontOk_noTessFail : fontNoTessFail exFontOk 1 0 := by
  intro ch g hg
  have hg2 : (if ch = 'b' then some exGlyphB else none) = some g := hg
  by_cases hb : ch = 'b'
  · rw [if_pos hb] at hg2
    cases Option.some.inj hg2
    simp [exGlyphB]
  · rw [if_neg hb] at hg2
    exact Option.noConfusion hg2

/-! ## Claims -/

/-- C4: a line's width is the sum of its characters' advances — a
character with a glyph contributes its advance, a whitespace character
with no glyph contributes the fixed `0.3` fallback, any other character
contributes `0` — and the line's starting x position is `0` for Left,
`-line_width/2` for Center and `-line_width` for Right justification.
(`lineWidth` and `xStart` are the arithmetic shared verbatim by both
pipelines, system.rs:66-81 and system.rs:239-266.) -/
theorem C4_line_width_and_justification (font : Font) (line : List Char)
    (w : ℚ) :
    lineWidth font line
        = (line.map
            (fun ch =>
              match font.glyphByChar ch with
              | some glyph => glyph.advance
              | none => if ch.isWhitespace then (0.3 : ℚ) else 0)).sum ∧
      xStart .Left w = 0 ∧ xStart .Center w = -(w / 2) ∧
      xStart .Right w = -w := by
  refine ⟨?_, rfl, ?_, rfl⟩
  · unfold lineWidth
    rw [foldl_lineWidth_eq_sum font line 0, zero_add]
  · unfold xStart
    ring

/-- C9: for empty input text the combined pipeline produces a mesh with
zero vertices, zero normals and zero indices (the anchor pass being
skipped), and the metrics-query operations return width `0` and an empty
position sequence. -/
theorem C9_empty_text (font : Font) (style : TextMeshStyle) :
    layoutCombined font style [] = ⟨[], [], []⟩ ∧
      text_width font [] = 0 ∧ char_positions font [] = [] := by
  refine ⟨?_, rfl, rfl⟩
  simp [layoutCombined, assembleText, splitLines, processLineCombined,
    initialAssemblyState]

/-- C2: assuming every per-glyph input mesh satisfies its own index
invariant, every index of the combined output mesh is strictly below the
output vertex count, and an empty vertex buffer forces an empty index
buffer. -/
theorem C2_index_integrity (font : Font) (style : TextMeshStyle)
    (text : List Char)
    (hWF : fontMeshesIndexWF font style.depth style.subdivision) :
    (∀ i ∈ (layoutCombined font style text).indices,
        i < (layoutCombined font style text).vertices.length) ∧
      ((layoutCombined font style text).vertices = [] →
        (layoutCombined font style text).indices = []) := by
  have hinv := assembleText_indexInv font style text hWF
  by_cases hv : (assembleText font style text).vertices = []
  · rw [layoutCombined_of_nil font style text hv]
    have hind : (assembleText font style text).indices = [] :=
      indexInv_empty hinv hv
    simp [hind]
  · obtain ⟨lo, hi, hb, heq⟩ := layoutCombined_of_ne_nil font style text hv
    rw [heq]
    constructor
    · intro i hi2
      simpa using hinv.2 i hi2
    · intro hcontra
      rw [List.map_eq_nil_iff] at hcontra
      exact absurd hcontra hv

/-- C2 witness: `exFont` satisfies the per-glyph index invariant and the
index-integrity conclusion holds for the text `"ab"`. -/
theorem C2_witness :
    fontMeshesIndexWF exFont exStyle.depth exStyle.subdivision ∧
      ∀ i ∈ (layoutCombined exFont exStyle ['a', 'b']).indices,
        i < (layoutCombined exFont exStyle ['a', 'b']).vertices.length :=
  ⟨exFont_indexWF,
    (C2_index_integrity exFont exStyle ['a', 'b'] exFont_indexWF).1⟩

/-- C5: when at least one vertex was assembled, the accumulated bounds
are exactly the min/max fold over every assembled vertex and the anchor
pass translates every vertex by the offset from the anchor table, leaving
normals and indices untouched; the `Custom(px,py)` entry of the table is
`(-(min.x + size.x·px), -(min.y + size.y·py), 0)` for arbitrary,
unclamped pivot fractions. -/
theorem C5_anchor_offset (font : Font) (style : TextMeshStyle)
    (text : List Char) (h : (assembleText font style text).vertices ≠ []) :
    (∃ lo hi, (assembleText font style text).bounds = some (lo, hi) ∧
        (assembleText font style text).bounds
          = (assembleText font style text).vertices.foldl updateBounds none ∧
        layoutCombined font style text =
          ⟨(assembleText font style text).vertices.map
              (fun v => v.add (anchorOffset style.anchor lo hi)),
            (assembleText font style text).normals,
            (assembleText font style text).indices⟩) ∧
      ∀ (lo hi : Vec3) (px py : ℚ),
        anchorOffset (.Custom (px, py)) lo hi
          = ⟨-(lo.x + (hi.x - lo.x) * px), -(lo.y + (hi.y - lo.y) * py), 0⟩ := by
  constructor
  · obtain ⟨lo, hi, hb, heq⟩ := layoutCombined_of_ne_nil font style text h
    exact ⟨lo, hi, hb, assembleText_boundsInv font style text, heq⟩
  · intro lo hi px py
    rfl

/-- C5 witness: the text `"b"` under `exFont` assembles a nonempty vertex
buffer and the anchor-pass conclusion holds for it. -/
theorem C5_witness :
    (assembleText exFont exStyle ['b']).vertices ≠ [] ∧
      ∃ lo hi, (assembleText exFont exStyle ['b']).bounds = some (lo, hi) ∧
        (assembleText exFont exStyle ['b']).bounds
          = (assembleText exFont exStyle ['b']).vertices.foldl
              updateBounds none ∧
        layoutCombined exFont exStyle ['b'] =
          ⟨(assembleText exFont exStyle ['b']).vertices.map
              (fun v => v.add (anchorOffset exStyle.anchor lo hi)),
            (assembleText exFont exStyle ['b']).normals,
            (assembleText exFont exStyle ['b']).indices⟩ := by
  have hne : (assembleText exFont exStyle ['b']).vertices ≠ [] := by
    norm_num +decide [assembleText, splitLines, processLineCombined,
      processCharCombined, initialAssemblyState, exFont, exGlyphA, exGlyphB,
      exMeshB, exStyle, lineWidth, xStart, updateBounds, Vec3.minv, Vec3.maxv]
  exact ⟨hne, (C5_anchor_offset exFont exStyle ['b'] hne).1⟩

/-- C7: vertical stacking — (1) folding any lines drops the combined
cursor by one line height per line, (2) hence the combined cursor
entering line `i` is `-i * line_height`, (3) every placement of the
per-entity pipeline sits at `cursor_y = -line_index * line_height`, and
(4) a whitespace-only line contributes no geometry yet still drops the
cursor by exactly one line height. -/
theorem C7_vertical_stacking (font : Font) (style : TextMeshStyle) :
    (∀ (lines : List (List Char)) (st : AssemblyState),
        (lines.foldl (processLineCombined font style) st).cursorY
          = st.cursorY - (lines.length : ℚ) * lineHeight font) ∧
      (∀ (text : List Char) (i : Nat), i ≤ (splitLines text).length →
        (((splitLines text).take i).foldl (processLineCombined font style)
            initialAssemblyState).cursorY = -(i : ℚ) * lineHeight font) ∧
      (∀ (text : List Char) (p : GlyphPlacement),
        p ∈ layoutPlacements font style text →
        p.posY = -(p.lineIndex : ℚ) * lineHeight font) ∧
      (∀ (st : AssemblyState) (line : List Char),
        (∀ c ∈ line, c.isWhitespace = true) →
        (processLineCombined font style st line).vertices = st.vertices ∧
          (processLineCombined font style st line).normals = st.normals ∧
          (processLineCombined font style st line).indices = st.indices ∧
          (processLineCombined font style st line).cursorY
            = st.cursorY - lineHeight font) := by
  refine ⟨foldl_processLineCombined_cursorY font style, ?_, ?_, ?_⟩
  · intro text i hi
    rw [foldl_processLineCombined_cursorY]
    have hlen : (((splitLines text).take i)).length = i := by
      rw [List.length_take]
      exact Nat.min_eq_left hi
    rw [hlen]
    show (0 : ℚ) - (i : ℚ) * lineHeight font = -(i : ℚ) * lineHeight font
    ring
  · intro text p hp
    exact placeLines_posY font style (splitLines text) 0 0 []
      (by intro q hq; exact absurd hq (List.not_mem_nil q)) p hp
  · intro st line hws
    obtain ⟨h1, h2, h3⟩ := foldl_processCharCombined_ws font style line
      { st with cursorX := xStart style.justify (lineWidth font line) } hws
    exact ⟨h1, h2, h3, processLineCombined_cursorY font style st line⟩

/-- C7 witness: two lines drop the cursor by `2 * line_height`; entering
line 1 of `"b\nb"` the cursor is `-line_height`; the planner's placement
for the second `'b'` of `"b\nb"` sits at `-1 * line_height = -3/2`; and
the whitespace-only line `" "` contributes no geometry while dropping the
cursor by one line height. -/
theorem C7_witness :
    (([['b'], ['b']].foldl (processLineCombined exFont exStyle)
          initialAssemblyState).cursorY
        = initialAssemblyState.cursorY
          - (([['b'], ['b']] : List (List Char)).length : ℚ)
            * lineHeight exFont) ∧
      ((((splitLines ['b', '\n', 'b']).take 1).foldl
            (processLineCombined exFont exStyle)
            initialAssemblyState).cursorY
        = -((1 : Nat) : ℚ) * lineHeight exFont) ∧
      (exPlacement ∈ layoutPlacements exFont exStyle ['b', '\n', 'b'] ∧
        exPlacement.posY = -(exPlacement.lineIndex : ℚ) * lineHeight exFont) ∧
      ((processLineCombined exFont exStyle initialAssemblyState
            [' ']).vertices = initialAssemblyState.vertices ∧
        (processLineCombined exFont exStyle initialAssemblyState
            [' ']).normals = initialAssemblyState.normals ∧
        (processLineCombined exFont exStyle initialAssemblyState
            [' ']).indices = initialAssemblyState.indices ∧
        (processLineCombined exFont exStyle initialAssemblyState
            [' ']).cursorY
          = initialAssemblyState.cursorY - lineHeight exFont) := by
  have hmem : exPlacement ∈ layoutPlacements exFont exStyle ['b', '\n', 'b'] := by
    norm_num +decide [layoutPlacements, splitLines, placeLines,
      processCharPerEntity, charAdvancePerEntity, exFont, exGlyphA, exGlyphB,
      exMeshB, exStyle, exPlacement, lineWidth, xStart, lineHeight]
  refine ⟨(C7_vertical_stacking exFont exStyle).1 [['b'], ['b']]
      initialAssemblyState, ?_, ⟨hmem, ?_⟩, ?_⟩
  · exact (C7_vertical_stacking exFont exStyle).2.1 ['b', '\n', 'b'] 1
      (by decide)
  · exact (C7_vertical_stacking exFont exStyle).2.2.1 ['b', '\n', 'b']
      exPlacement hmem
  · exact (C7_vertical_stacking exFont exStyle).2.2.2 initialAssemblyState
      [' '] (by decide)

/-- C8: a layout pass with the font asset not yet available, or with
present but unparseable font bytes, is a no-op in both pipelines: the
prior mesh store, mesh handle, children and computed markers are left
entirely unchanged. -/
theorem C8_pass_skip (fromBytes : List Nat → Option Font)
    (style : TextMeshStyle) (text : List Char) (w : TextMeshWorld)
    (gw : GlyphWorld) (bytes : List Nat) :
    updateTextMeshPass none fromBytes style text w = w ∧
      (fromBytes bytes = none →
        updateTextMeshPass (some bytes) fromBytes style text w = w) ∧
      updateGlyphMeshesPass none fromBytes style text gw = gw ∧
      (fromBytes bytes = none →
        updateGlyphMeshesPass (some bytes) fromBytes style text gw = gw) := by
  refine ⟨rfl, ?_, rfl, ?_⟩ <;> intro h <;>
    simp [updateTextMeshPass, updateGlyphMeshesPass, h]

/-- C8 witness: with a parser that always fails, a pass over concrete
prior state leaves it byte-for-byte unchanged in both pipelines. -/
theorem C8_witness :
    updateTextMeshPass (some []) (fun _ => (none : Option Font)) exStyle
        ['b'] ⟨[], 0, false⟩ = ⟨[], 0, false⟩ ∧
      updateGlyphMeshesPass (some []) (fun _ => (none : Option Font)) exStyle
        ['b'] ⟨[ChildEntity.other 7], false⟩ = ⟨[ChildEntity.other 7], false⟩ :=
  ⟨(C8_pass_skip (fun _ => none) exStyle ['b'] ⟨[], 0, false⟩
      ⟨[ChildEntity.other 7], false⟩ []).2.1 rfl,
    (C8_pass_skip (fun _ => none) exStyle ['b'] ⟨[], 0, false⟩
      ⟨[ChildEntity.other 7], false⟩ []).2.2.2 rfl⟩

/-- C10: a successful per-entity rebuild despawns exactly the children
carrying the `GlyphMesh` marker — the new children list is the unmarked
prior children (in order) followed by the freshly spawned glyphs, the
despawned set is exactly the marked prior children, and every unmarked
prior child survives the rebuild. -/
theorem C10_despawn_only_marked (fromBytes : List Nat → Option Font)
    (bytes : List Nat) (font : Font) (style : TextMeshStyle)
    (text : List Char) (w : GlyphWorld)
    (hparse : fromBytes bytes = some font) :
    (updateGlyphMeshesPass (some bytes) fromBytes style text w).children
        = w.children.filter (fun c => !hasGlyphMark c)
          ++ (layoutPlacements font style text).map ChildEntity.glyph ∧
      (despawnGlyphChildren w.children).2 = w.children.filter hasGlyphMark ∧
      ∀ c ∈ w.children, hasGlyphMark c = false →
        c ∈ (updateGlyphMeshesPass (some bytes)
            fromBytes style text w).children := by
  have hspec := despawnGlyphChildren_spec w.children
  refine ⟨?_, hspec.2, ?_⟩
  · simp [updateGlyphMeshesPass, hparse, hspec.1]
  · intro c hc hmark
    simp [updateGlyphMeshesPass, hparse, hspec.1, List.mem_append,
      List.mem_filter, hc, hmark]

/-- C10 witness: rebuilding a parent with one unmarked child and one
stale glyph child keeps the unmarked child, despawns the stale glyph and
appends the fresh glyphs. -/
theorem C10_witness :
    (updateGlyphMeshesPass (some []) (fun _ => some exFont) exStyle ['b']
          ⟨[ChildEntity.other 7, ChildEntity.glyph exPlacement],
            false⟩).children
        = ([ChildEntity.other 7, ChildEntity.glyph exPlacement] :
            List ChildEntity).filter (fun c => !hasGlyphMark c)
          ++ (layoutPlacements exFont exStyle ['b']).map ChildEntity.glyph ∧
      (despawnGlyphChildren
            [ChildEntity.other 7, ChildEntity.glyph exPlacement]).2
        = ([ChildEntity.other 7, ChildEntity.glyph exPlacement] :
            List ChildEntity).filter hasGlyphMark ∧
      ChildEntity.other 7 ∈ (updateGlyphMeshesPass (some [])
          (fun _ => some exFont) exStyle ['b']
          ⟨[ChildEntity.other 7, ChildEntity.glyph exPlacement],
            false⟩).children := by
  have h := C10_despawn_only_marked (fun _ => some exFont) [] exFont exStyle
    ['b'] ⟨[ChildEntity.other 7, ChildEntity.glyph exPlacement], false⟩ rfl
  exact ⟨h.1, h.2.1, h.2.2 (ChildEntity.other 7) (by decide) rfl⟩

/-- Translating by `o1` and then by the componentwise difference to `o2`
is the same as translating by `o2` directly. -/
theorem map_add_add (o1 o2 : Vec3) :
    ∀ (l : List Vec3),
      l.map (fun v => v.add o2)
        = (l.map (fun v => v.add o1)).map
            (fun v => v.add ⟨o2.x - o1.x, o2.y - o1.y, o2.z - o1.z⟩) := by
  intro l
  induction l with
  | nil => rfl
  | cons v rest ih =>
    rw [List.map_cons, List.map_cons, List.map_cons, ih]
    congr 1
    simp only [Vec3.add, Vec3.mk.injEq]
    refine ⟨by ring, by ring, by ring⟩

/-- C6: running the combined pipeline with two configurations differing
only in the anchor yields identical normal and index buffers and vertex
buffers differing by one constant translation applied to every vertex;
when no vertex was assembled (well-formed glyph meshes assumed) the
anchor pass is skipped and both outputs are the empty mesh. -/
theorem C6_anchor_only_translates (font : Font) (text : List Char) (d : ℚ)
    (sub : Nat) (j : JustifyText) (a1 a2 : TextAnchor)
    (hIdx : fontMeshesIndexWF font d sub)
    (hNrm : fontMeshesNormalsWF font d sub) :
    (layoutCombined font ⟨d, sub, j, a1⟩ text).normals
        = (layoutCombined font ⟨d, sub, j, a2⟩ text).normals ∧
      (layoutCombined font ⟨d, sub, j, a1⟩ text).indices
        = (layoutCombined font ⟨d, sub, j, a2⟩ text).indices ∧
      (∃ t, (layoutCombined font ⟨d, sub, j, a2⟩ text).vertices
          = (layoutCombined font ⟨d, sub, j, a1⟩ text).vertices.map
              (fun v => v.add t)) ∧
      ((assembleText font ⟨d, sub, j, a1⟩ text).vertices = [] →
        layoutCombined font ⟨d, sub, j, a1⟩ text = ⟨[], [], []⟩ ∧
          layoutCombined font ⟨d, sub, j, a2⟩ text = ⟨[], [], []⟩) := by
  have hfree := assembleText_anchor_free font d sub j a1 a2 text
  by_cases hv : (assembleText font ⟨d, sub, j, a1⟩ text).vertices = []
  · have hv2 : (assembleText font ⟨d, sub, j, a2⟩ text).vertices = [] := by
      rw [← hfree]; exact hv
    have hn1 : (assembleText font ⟨d, sub, j, a1⟩ text).normals = [] :=
      normalsInv_empty
        (assembleText_normalsInv font ⟨d, sub, j, a1⟩ text hNrm) hv
    have hi1 : (assembleText font ⟨d, sub, j, a1⟩ text).indices = [] :=
      indexInv_empty (assembleText_indexInv font ⟨d, sub, j, a1⟩ text hIdx) hv
    have e1 : layoutCombined font ⟨d, sub, j, a1⟩ text = ⟨[], [], []⟩ := by
      rw [layoutCombined_of_nil font ⟨d, sub, j, a1⟩ text hv, hn1, hi1]
    have e2 : layoutCombined font ⟨d, sub, j, a2⟩ text = ⟨[], [], []⟩ := by
      rw [layoutCombined_of_nil font ⟨d, sub, j, a2⟩ text hv2, ← hfree,
        hn1, hi1]
    rw [e1, e2]
    exact ⟨rfl, rfl, ⟨⟨0, 0, 0⟩, rfl⟩, fun _ => ⟨rfl, rfl⟩⟩
  · have hv2 : (assembleText font ⟨d, sub, j, a2⟩ text).vertices ≠ [] := by
      rw [← hfree]; exact hv
    obtain ⟨lo1, bhi1, hb1, heq1⟩ :=
      layoutCombined_of_ne_nil font ⟨d, sub, j, a1⟩ text hv
    obtain ⟨lo2, bhi2, hb2, heq2⟩ :=
      layoutCombined_of_ne_nil font ⟨d, sub, j, a2⟩ text hv2
    simp only [] at heq1 heq2
    have hbb : some (lo1, bhi1) = some (lo2, bhi2) := by
      rw [← hb1, hfree, hb2]
    have hpair := Option.some.inj hbb
    have hlo : lo1 = lo2 := congrArg Prod.fst hpair
    have hhi : bhi1 = bhi2 := congrArg Prod.snd hpair
    subst hlo
    subst hhi
    refine ⟨?_, ?_, ?_, fun hcontra => absurd hcontra hv⟩
    · rw [heq1, heq2, hfree]
    · rw [heq1, heq2, hfree]
    · refine ⟨⟨(anchorOffset a2 lo1 bhi1).x - (anchorOffset a1 lo1 bhi1).x,
        (anchorOffset a2 lo1 bhi1).y - (anchorOffset a1 lo1 bhi1).y,
        (anchorOffset a2 lo1 bhi1).z - (anchorOffset a1 lo1 bhi1).z⟩, ?_⟩
      rw [heq1, heq2, ← hfree]
      exact map_add_add (anchorOffset a1 lo1 bhi1) (anchorOffset a2 lo1 bhi1)
        (assembleText font ⟨d, sub, j, a1⟩ text).vertices

/-- C6 witness: `exFont` satisfies both per-glyph invariants and the
translation conclusion holds for `"b"` when moving the anchor from
BottomLeft to TopRight. -/
theorem C6_witness :
    fontMeshesIndexWF exFont 1 0 ∧ fontMeshesNormalsWF exFont 1 0 ∧
      ∃ t, (layoutCombined exFont ⟨1, 0, .Left, .TopRight⟩ ['b']).vertices
        = (layoutCombined exFont
            ⟨1, 0, .Left, .BottomLeft⟩ ['b']).vertices.map
              (fun v => v.add t) :=
  ⟨exFont_indexWF, exFont_normalsWF,
    (C6_anchor_only_translates exFont ['b'] 1 0 .Left .BottomLeft .TopRight
      exFont_indexWF exFont_normalsWF).2.2.1⟩

/-- C1 counterexample: under `exFont`, `'a'` has a glyph with advance `1`
whose tessellation fails; processing it in the combined pipeline leaves
the state (cursor included) entirely unchanged, and in `"ab"` the glyph
of `'b'` is merged at `x = 0` — not at `x = 1` as the claim's
"advance still moves the cursor" would require. -/
theorem C1_counterexample :
    exGlyphA.advance = 1 ∧
      exFont.glyphByChar 'a' = some exGlyphA ∧
      ((exFont.glyphByChar 'a').bind
        (fun g => g.toMesh3d exStyle.depth exStyle.subdivision)) = none ∧
      processCharCombined exFont exStyle initialAssemblyState 'a'
        = initialAssemblyState ∧
      (assembleText exFont exStyle ['a', 'b']).vertices
        = [⟨0, 0, 0⟩, ⟨1, 0, 0⟩, ⟨0, 1, 0⟩] := by
  refine ⟨rfl, rfl, rfl, ?_, ?_⟩
  · norm_num +decide [processCharCombined, initialAssemblyState, exFont,
      exGlyphA, exStyle]
  · norm_num +decide [assembleText, splitLines, processLineCombined,
      processCharCombined, initialAssemblyState, exFont, exGlyphA, exGlyphB,
      exMeshB, exStyle, lineWidth, xStart, updateBounds, Vec3.minv, Vec3.maxv]

/-- C1 (amended): in the combined pipeline, a non-whitespace character
whose glyph lookup or tessellation fails contributes no geometry and
leaves the cursor unchanged (its advance is NOT applied, so subsequent
characters are placed as if the failed character had zero advance); the
failure never aborts the pass — the state is simply passed through. -/
theorem C1_failed_glyph_is_noop (font : Font) (style : TextMeshStyle)
    (st : AssemblyState) (ch : Char) (hws : ch.isWhitespace = false)
    (hfail : (font.glyphByChar ch).bind
      (fun g => g.toMesh3d style.depth style.subdivision) = none) :
    processCharCombined font style st ch = st := by
  unfold processCharCombined
  simp [hws, hfail]

/-- C1 witness: the amended statement instantiated at `exFont`, `'a'` and
the initial state. -/
theorem C1_witness :
    ('a'.isWhitespace = false) ∧
      ((exFont.glyphByChar 'a').bind
        (fun g => g.toMesh3d exStyle.depth exStyle.subdivision) = none) ∧
      processCharCombined exFont exStyle initialAssemblyState 'a'
        = initialAssemblyState :=
  ⟨by decide, rfl,
    C1_failed_glyph_is_noop exFont exStyle initialAssemblyState 'a'
      (by decide) rfl⟩

/-- C3 counterexample: in `"ab"` under `exFont` (where `'a'` has advance
`1` but fails tessellation), the combined pipeline merges the `'b'` glyph
translated by `x = 0`, while the per-entity pipeline emits the `'b'`
placement at `x = 1`: the two pipelines do NOT compute the same
per-character cursor position when a glyph fails. -/
theorem C3_counterexample :
    (assembleText exFont exStyle ['a', 'b']).vertices
        = [⟨0, 0, 0⟩, ⟨1, 0, 0⟩, ⟨0, 1, 0⟩] ∧
      (layoutPlacements exFont exStyle ['a', 'b']).map
          (fun p => (p.character, p.posX, p.posY)) = [('b', 1, 0)] := by
  constructor
  · norm_num +decide [assembleText, splitLines, processLineCombined,
      processCharCombined, initialAssemblyState, exFont, exGlyphA, exGlyphB,
      exMeshB, exStyle, lineWidth, xStart, updateBounds, Vec3.minv, Vec3.maxv]
  · norm_num +decide [layoutPlacements, splitLines, placeLines,
      processCharPerEntity, charAdvancePerEntity, exFont, exGlyphA, exGlyphB,
      exMeshB, exStyle, lineWidth, xStart, lineHeight]

/-- C3 (amended): for every font none of whose glyphs fails tessellation
at the style's depth and subdivision, the two pipelines agree exactly:
the combined pre-anchor vertex buffer is the concatenation, in placement
order, of each per-entity placement's local mesh translated by its
placement position — i.e. the glyph translation applied when merging
equals the placement transform emitted in per-entity mode for the same
character occurrence. -/
theorem C3_pipelines_agree (font : Font) (style : TextMeshStyle)
    (text : List Char)
    (hNF : fontNoTessFail font style.depth style.subdivision) :
    (assembleText font style text).vertices
      = ((layoutPlacements font style text).map glyphVertices).flatten := by
  unfold assembleText layoutPlacements
  exact placeLines_rel font style hNF (splitLines text) 0 0 []
    initialAssemblyState (by simp [initialAssemblyState]) rfl

/-- C3 witness: the amended statement instantiated at `exFontOk` (no
failing glyph) on the two-line text `"b\nb"`. -/
theorem C3_witness :
    fontNoTessFail exFontOk exStyle.depth exStyle.subdivision ∧
      (assembleText exFontOk exStyle ['b', '\n', 'b']).vertices
        = ((layoutPlacements exFontOk exStyle
            ['b', '\n', 'b']).map glyphVertices).flatten :=
  ⟨exFontOk_noTessFail,
    C3_pipelines_agree exFontOk exStyle ['b', '\n', 'b'] exFontOk_noTessFail⟩

end BevyFontMesh
